import Mathlib

/-!
Verification of the Echolog telemetry SDK event pipeline.

This file gives a shallow embedding, in Lean 4, of the event capture,
batching, and delivery pipeline of the Echolog browser SDK:

* `transformJsonForServer` from src/core/utilities/utility.ts,
* `EventManager.captureEvent` / `captureMessage` / `captureException` /
  `flush` from src/client/EventManager.ts,
* `EventSender.sendEvents` from src/client/EventSender.ts,
* `OfflineManager.storeEvent` from src/client/OfflineManger.ts,
* `TransactionManager.finishSpan` from src/client/OfflineManger.ts.

JavaScript runtime values are modelled by the inductive type `JsonVal`,
which distinguishes `undefined` from `null` and represents objects as
insertion-ordered association lists.  Nondeterministic inputs of the
source (generated ids, clock readings, the random sampling draw, fetch
outcomes) are passed as explicit oracle parameters.  Numbers are modelled
as integers (for data carried opaquely) and rationals (for the sampling
comparison); none of the verified properties depend on floating-point
rounding.
-/

namespace Echolog

/-- Model of a JavaScript runtime value as passed through the SDK.
`undef` is the JavaScript value `undefined`, `jnull` is `null`; objects
keep their keys in insertion order. -/
inductive JsonVal where
  | undef : JsonVal
  | jnull : JsonVal
  | jbool : Bool → JsonVal
  | jnum : Int → JsonVal
  | jstr : String → JsonVal
  | jarr : List JsonVal → JsonVal
  | jobj : List (String × JsonVal) → JsonVal
deriving Repr

/-- Tests whether the value is a JavaScript string. -/
def JsonVal.isStr : JsonVal → Bool
  | .jstr _ => true
  | _ => false

/-- Tests whether the value is exactly `undefined`. -/
def JsonVal.isUndef : JsonVal → Bool
  | .undef => true
  | _ => false

/-- JavaScript truthiness: `undefined`, `null`, `false`, `0` and the empty
string are falsy; every object and array is truthy. -/
def truthy : JsonVal → Bool
  | .undef => false
  | .jnull => false
  | .jbool b => b
  | .jnum n => n != 0
  | .jstr s => s != ""
  | .jarr _ => true
  | .jobj _ => true

/-- JavaScript `a || b`. -/
def jsOr (a b : JsonVal) : JsonVal := if truthy a then a else b

/-- JavaScript `a || null`, the normalization default used all over
`captureEvent`. -/
def jsOrNull (a : JsonVal) : JsonVal := jsOr a .jnull

/-- JavaScript `a ?? null` (nullish coalescing, used for `line` and
`duration_ms`). -/
def jsCoNull : JsonVal → JsonVal
  | .undef => .jnull
  | .jnull => .jnull
  | v => v

/-- First value stored under key `k` in an object entry list (JavaScript
property read on our association-list objects; keys are unique in objects
built by the SDK, so first-match is the property). -/
def lookupField (k : String) : List (String × JsonVal) → Option JsonVal
  | [] => none
  | (k1, v) :: rest => if k1 = k then some v else lookupField k rest

/-- JavaScript property assignment `o[k] = v` on an entry list: an
existing key keeps its position and gets the new value, a new key is
appended. -/
def jsAssign : List (String × JsonVal) → String → JsonVal → List (String × JsonVal)
  | [], k, v => [(k, v)]
  | (k1, v1) :: rest, k, v =>
      if k1 = k then (k1, v) :: rest else (k1, v1) :: jsAssign rest k v

/-- Entries copied by a JavaScript object spread `...v`: spreading
`null`, `undefined` or a non-object yields no entries. -/
def spreadEntries : JsonVal → List (String × JsonVal)
  | .jobj l => l
  | _ => []

/-- JavaScript `Object.assign(target, src)` restricted to object sources:
each own entry of `src` is assigned onto `target` in order.  A non-object
source contributes nothing (the SDK only ever passes event objects). -/
def objAssign (target : List (String × JsonVal)) : JsonVal → List (String × JsonVal)
  | .jobj srcEntries => srcEntries.foldl (fun acc kv => jsAssign acc kv.1 kv.2) target
  | _ => target

/-- Substring test on character lists, used to model
`String.prototype.includes`. -/
def charListHasInfix (pat : List Char) : List Char → Bool
  | [] => pat.isEmpty
  | c :: rest => pat.isPrefixOf (c :: rest) || charListHasInfix pat rest

/-- JavaScript `s.includes(pat)`. -/
def strContains (s pat : String) : Bool := charListHasInfix pat.data s.data

mutual

/-- JavaScript string conversion (template-literal interpolation), used
by the transaction default message. -/
def jsToString : JsonVal → String
  | .undef => "undefined"
  | .jnull => "null"
  | .jbool b => if b then "true" else "false"
  | .jnum n => toString n
  | .jstr s => s
  | .jarr xs => jsToStringList xs
  | .jobj _ => "[object Object]"

/-- Array toString: comma-joined element conversions. -/
def jsToStringList : List JsonVal → String
  | [] => ""
  | [x] => jsToString x
  | x :: y :: rest => jsToString x ++ "," ++ jsToStringList (y :: rest)

end

/-! Embedding of `transformJsonForServer` (src/core/utilities/utility.ts,
lines 74 to 100).  The source walks `Object.entries(obj)`, renames the
key `user` to `user_data`, keeps a string-valued `level` untransformed
when the object also has an `id` key, skips a string-valued `level`
otherwise, recursively transforms every other non-`undefined` value, and
accumulates the results by property assignment into a fresh object. -/

/-- Key renaming of the transform: `const fixedKey = key === "user" ? "user_data" : key`. -/
def fixKey (k : String) : String := if k = "user" then "user_data" else k

/-- Accumulation loop of the transform over annotated entries
`(key, original value, transformed value)`, building `result` by
`result[fixedKey] = ...` assignments exactly as the source for-loop does. -/
def buildObj (hasId : Bool) :
    List (String × JsonVal × JsonVal) → List (String × JsonVal) → List (String × JsonVal)
  | [], acc => acc
  | (k, v, tv) :: rest, acc =>
      if k = "level" ∧ v.isStr ∧ hasId then
        buildObj hasId rest (jsAssign acc (fixKey k) v)
      else if k = "level" ∧ v.isStr then
        buildObj hasId rest acc
      else if !v.isUndef then
        buildObj hasId rest (jsAssign acc (fixKey k) tv)
      else
        buildObj hasId rest acc

mutual

/-- Embedding of `transformJsonForServer`: `undefined` and `null` are
returned as given, arrays are mapped, primitives are unchanged, and
objects are rebuilt by the entry loop, where `hasId` is
`Object.keys(obj).includes("id")`. -/
def transformJsonForServer : JsonVal → JsonVal
  | .undef => .undef
  | .jnull => .jnull
  | .jbool b => .jbool b
  | .jnum n => .jnum n
  | .jstr s => .jstr s
  | .jarr xs => .jarr (transformJsonList xs)
  | .jobj kvs =>
      .jobj (buildObj (kvs.any (fun kv => kv.1 = "id")) (transformJsonEntries kvs) [])

/-- Recursive transform of an array (the `obj.map(transformJsonForServer)` case). -/
def transformJsonList : List JsonVal → List JsonVal
  | [] => []
  | x :: xs => transformJsonForServer x :: transformJsonList xs

/-- Annotation of the object entries with their transformed values, in
entry order. -/
def transformJsonEntries : List (String × JsonVal) → List (String × JsonVal × JsonVal)
  | [] => []
  | (k, v) :: rest => (k, v, transformJsonForServer v) :: transformJsonEntries rest

end

/-! A second transform written from the words of the specification, for
the refinement claim C7: recursively rename any key literally named
`user` to `user_data`, omit entries whose value is `undefined`, remove a
string-valued `level` key from objects without a sibling `id` key,
preserve `level` where a sibling `id` key exists, and leave all other
keys and primitive values unchanged. -/

mutual

/-- Modelled from the spec: the wire transform as described in the
specification text (rename `user`, omit `undefined` entries, strip
nested string `level`, keep root `level` where an `id` sibling exists). -/
def specTransformForServer : JsonVal → JsonVal
  | .undef => .undef
  | .jnull => .jnull
  | .jbool b => .jbool b
  | .jnum n => .jnum n
  | .jstr s => .jstr s
  | .jarr xs => .jarr (specTransformList xs)
  | .jobj kvs => .jobj (specTransformEntries (kvs.any (fun kv => kv.1 = "id")) kvs)

/-- Spec-side transform of an array. -/
def specTransformList : List JsonVal → List JsonVal
  | [] => []
  | x :: xs => specTransformForServer x :: specTransformList xs

/-- Spec-side per-entry rule: drop `undefined` values, drop a
string-valued `level` without an `id` sibling, otherwise keep the entry
under its renamed key with a recursively transformed value. -/
def specTransformEntries (hasId : Bool) : List (String × JsonVal) → List (String × JsonVal)
  | [] => []
  | (k, v) :: rest =>
      if v.isUndef then specTransformEntries hasId rest
      else if k = "level" ∧ v.isStr = true ∧ hasId = false then specTransformEntries hasId rest
      else (fixKey k, specTransformForServer v) :: specTransformEntries hasId rest

end

/-- Selection function used to relate the two transforms: the entries the
source loop actually assigns, with their renamed keys and final values. -/
def keptEntries (hasId : Bool) : List (String × JsonVal × JsonVal) → List (String × JsonVal)
  | [] => []
  | (k, v, tv) :: rest =>
      if k = "level" ∧ v.isStr ∧ hasId then (fixKey k, v) :: keptEntries hasId rest
      else if k = "level" ∧ v.isStr then keptEntries hasId rest
      else if !v.isUndef then (fixKey k, tv) :: keptEntries hasId rest
      else keptEntries hasId rest

/-- Tests that a list of keys has no duplicates. -/
def nodupKeysB : List String → Bool
  | [] => true
  | k :: rest => !(rest.contains k) && nodupKeysB rest

mutual

/-- Well-formedness of a value for the transform claim: at every object,
the keys are pairwise distinct even after the `user` to `user_data`
renaming.  Every object produced by the JavaScript runtime has distinct
keys; the renaming clause additionally rules out an object carrying both
a `user` and a `user_data` key, on which the informal description of the
transform is not well defined. -/
def goodKeysB : JsonVal → Bool
  | .jarr xs => goodKeysListB xs
  | .jobj kvs => nodupKeysB (kvs.map (fun kv => fixKey kv.1)) && goodKeysEntriesB kvs
  | _ => true

/-- Well-formedness of every element of an array. -/
def goodKeysListB : List JsonVal → Bool
  | [] => true
  | x :: xs => goodKeysB x && goodKeysListB xs

/-- Well-formedness of every value of an object. -/
def goodKeysEntriesB : List (String × JsonVal) → Bool
  | [] => true
  | (_, v) :: rest => goodKeysB v && goodKeysEntriesB rest

end

/-! Embedding of `EventManager` (src/client/EventManager.ts, the revision
with transaction support; `captureEvent` is lines 36 to 157).  Instance
and environment state read by the manager is collected in `MgrState`;
configuration read from `EchologOptions` and the client in `Config`; the
id generator, clock and sampling draw are the oracle `Fresh`.  Calls to
`debugLog` only write to the console and are omitted. -/

/-- Configuration visible to `captureEvent`: fields of `EchologOptions`
plus the client identity fields read through `this.client`. -/
structure Config where
  serviceName : String
  projectId : String
  environment : String
  release : Option String := none
  beforeSend : Option (JsonVal → JsonVal) := none
  sampleRate : Option Rat := none
  maxBatchSize : Option Nat := none

/-- Mutable and ambient state read by the manager: the sender flag, the
session manager snapshot, the breadcrumb buffer contents, the stored
user, the browser environment, and the event queue. -/
structure MgrState where
  isSendingLogs : Bool := false
  sessionId : Option String := none
  sessionStart : Option String := none
  breadcrumbs : List JsonVal := []
  userData : JsonVal := .undef
  hasNavigator : Bool := false
  browserName : String := ""
  userAgent : String := ""
  queue : List JsonVal := []

/-- Oracle for the nondeterministic inputs of one capture call: the up to
three `generateUniqueId()` results, the `new Date().toISOString()`
reading (all clock reads within one call are modelled by one value), and
the `Math.random()` draw of the sampling step. -/
structure Fresh where
  id1 : String := "log-0-aaaaaaaaa"
  id2 : String := "log-0-bbbbbbbbb"
  id3 : String := "log-0-ccccccccc"
  nowIso : String := "1970-01-01T00:00:00.000Z"
  rnd : Rat := 0

/-- Partial event as supplied by a producer: every declared field of
`Partial<LogEvent | Transaction>` as a JavaScript value (`undef` both for
an absent key and for a key explicitly set to `undefined`, which every
property read conflates), plus the key-presence bits tested by the
`in`-operator shape detection for the three transaction fields. -/
structure PartialEvent where
  id : JsonVal := .undef
  timestamp : JsonVal := .undef
  service_name : JsonVal := .undef
  level : JsonVal := .undef
  message : JsonVal := .undef
  instance_id : JsonVal := .undef
  context : JsonVal := .undef
  thread_id : JsonVal := .undef
  file : JsonVal := .undef
  line : JsonVal := .undef
  function : JsonVal := .undef
  trace_id : JsonVal := .undef
  span_id : JsonVal := .undef
  parent_span_id : JsonVal := .undef
  duration_ms : JsonVal := .undef
  error_type : JsonVal := .undef
  stack_trace : JsonVal := .undef
  user_data : JsonVal := .undef
  root_cause : JsonVal := .undef
  system_metrics : JsonVal := .undef
  code_location : JsonVal := .undef
  session : JsonVal := .undef
  error_details : JsonVal := .undef
  metadata : JsonVal := .undef
  tags : JsonVal := .undef
  exception : JsonVal := .undef
  network : JsonVal := .undef
  console : JsonVal := .undef
  breadcrumbs : JsonVal := .undef
  name : JsonVal := .undef
  op : JsonVal := .undef
  start_timestamp : JsonVal := .undef
  end_timestamp : JsonVal := .undef
  spans : JsonVal := .undef
  hasSpans : Bool := false
  hasName : Bool := false
  hasStartTimestamp : Bool := false

/-- Result of a capture call: the returned value (`null` or the event
id), the queue afterwards (before any threshold-triggered flush, which
is modelled separately by `flushCall`), and whether the batch-size
threshold fired. -/
structure CapResult where
  ret : JsonVal
  queue : List JsonVal
  wantsFlush : Bool

/-- Session snapshot of `captureEvent`:
`getSessionId() && getSessionStartTime() ? ... : null` (a session id is
a string, hence falsy when empty; a start time is a `Date` object, hence
truthy whenever present). -/
def sessionSnapshot (st : MgrState) : JsonVal :=
  match st.sessionId, st.sessionStart with
  | some sid, some t =>
      if sid != "" then .jobj [("id", .jstr sid), ("started_at", .jstr t)] else .jnull
  | _, _ => .jnull

/-- Session snapshot of `captureMessage` and `captureException`, which
test only `getSessionId()` and then read the start time through a
non-null assertion; the assertion is modelled by defaulting to the empty
string (the session manager always sets both fields together). -/
def sessionSnapshotMsg (st : MgrState) : JsonVal :=
  match st.sessionId with
  | some sid =>
      if sid != "" then
        .jobj [("id", .jstr sid), ("started_at", .jstr (st.sessionStart.getD ""))]
      else .jnull
  | none => .jnull

/-- Tags object of both normalization branches:
spread of `event.tags`, then `environment`, then `release` when the
client release string is truthy. -/
def tagsObj (cfg : Config) (p : PartialEvent) : JsonVal :=
  let base := jsAssign (spreadEntries p.tags) "environment" (.jstr cfg.environment)
  match cfg.release with
  | some r => if r != "" then .jobj (jsAssign base "release" (.jstr r)) else .jobj base
  | none => .jobj base

/-- Browser identity object merged into metadata when `navigator` exists. -/
def browserObj (st : MgrState) : JsonVal :=
  .jobj [("name", .jstr st.browserName), ("userAgent", .jstr st.userAgent)]

/-- Object literal of the non-transaction branch of `captureEvent`
(lines 88 to 125 of the source), field by field in source order. -/
def plainLiteral (cfg : Config) (st : MgrState) (inp : Fresh) (p : PartialEvent) :
    List (String × JsonVal) :=
  [("id", jsOr p.id (.jstr inp.id1)),
   ("timestamp", jsOr p.timestamp (.jstr inp.nowIso)),
   ("service_name", jsOr p.service_name (.jstr cfg.serviceName)),
   ("level", jsOr p.level (.jstr "INFO")),
   ("message", jsOr p.message (.jstr "")),
   ("instance_id", jsOrNull p.instance_id),
   ("context", jsOrNull p.context),
   ("thread_id", jsOrNull p.thread_id),
   ("file", jsOrNull p.file),
   ("line", jsCoNull p.line),
   ("function", jsOrNull p.function),
   ("project_id", .jstr cfg.projectId),
   ("trace_id", jsOrNull p.trace_id),
   ("span_id", jsOrNull p.span_id),
   ("parent_span_id", jsOrNull p.parent_span_id),
   ("duration_ms", jsCoNull p.duration_ms),
   ("error_type", jsOrNull p.error_type),
   ("stack_trace", jsOrNull p.stack_trace),
   ("user_data", jsOr p.user_data (jsOrNull st.userData)),
   ("root_cause", jsOrNull p.root_cause),
   ("system_metrics", jsOrNull p.system_metrics),
   ("code_location", jsOrNull p.code_location),
   ("session", jsOr p.session (sessionSnapshot st)),
   ("error_details", jsOrNull p.error_details),
   ("metadata", jsOrNull p.metadata),
   ("tags", tagsObj cfg p),
   ("exception", jsOrNull p.exception),
   ("network", jsOrNull p.network),
   ("console", jsOrNull p.console),
   ("breadcrumbs", jsOr p.breadcrumbs (.jarr st.breadcrumbs))]

/-- Object literal of the transaction branch of `captureEvent` (lines 44
to 86 of the source), field by field in source order.  Note
`end_timestamp` defaults to `undefined`, `trace_id` and `span_id` to
fresh ids, `op` to the string `transaction`, and the default message
interpolates the transaction name. -/
def txLiteral (cfg : Config) (st : MgrState) (inp : Fresh) (p : PartialEvent) :
    List (String × JsonVal) :=
  [("id", jsOr p.id (.jstr inp.id1)),
   ("timestamp", jsOr p.timestamp (.jstr inp.nowIso)),
   ("service_name", jsOr p.service_name (.jstr cfg.serviceName)),
   ("level", jsOr p.level (.jstr "INFO")),
   ("message", jsOr p.message (.jstr ("Transaction: " ++ jsToString p.name))),
   ("project_id", .jstr cfg.projectId),
   ("trace_id", jsOr p.trace_id (.jstr inp.id2)),
   ("span_id", jsOr p.span_id (.jstr inp.id3)),
   ("parent_span_id", jsOrNull p.parent_span_id),
   ("duration_ms", jsCoNull p.duration_ms),
   ("name", p.name),
   ("start_timestamp", jsOr p.start_timestamp (.jstr inp.nowIso)),
   ("end_timestamp", jsOr p.end_timestamp .undef),
   ("spans", jsOr p.spans (.jarr [])),
   ("instance_id", jsOrNull p.instance_id),
   ("context", jsOrNull p.context),
   ("op", jsOr p.op (.jstr "transaction")),
   ("thread_id", jsOrNull p.thread_id),
   ("file", jsOrNull p.file),
   ("line", jsCoNull p.line),
   ("function", jsOrNull p.function),
   ("error_type", jsOrNull p.error_type),
   ("stack_trace", jsOrNull p.stack_trace),
   ("user_data", jsOr p.user_data (jsOrNull st.userData)),
   ("root_cause", jsOrNull p.root_cause),
   ("system_metrics", jsOrNull p.system_metrics),
   ("code_location", jsOrNull p.code_location),
   ("session", jsOr p.session (sessionSnapshot st)),
   ("error_details", jsOrNull p.error_details),
   ("metadata", jsOrNull p.metadata),
   ("tags", tagsObj cfg p),
   ("exception", jsOrNull p.exception),
   ("network", jsOrNull p.network),
   ("console", jsOrNull p.console),
   ("breadcrumbs", jsOr p.breadcrumbs (.jarr st.breadcrumbs))]

/-- Recursion-guard marker test of `captureEvent`:
`event.message?.includes("[Echolog Debug]")` (a non-string message never
reaches `includes` under the declared types). -/
def msgHasMarker : JsonVal → Bool
  | .jstr s => strContains s "[Echolog Debug]"
  | _ => false

/-- Normalized event after the branch literal and the browser-metadata
merge (`completeEvent.metadata = ...spread, browser...` when `navigator`
exists). -/
def normalizedEvent (cfg : Config) (st : MgrState) (inp : Fresh) (p : PartialEvent) :
    List (String × JsonVal) :=
  let base :=
    if p.hasSpans && p.hasName && p.hasStartTimestamp then txLiteral cfg st inp p
    else plainLiteral cfg st inp p
  if st.hasNavigator then
    jsAssign base "metadata"
      (.jobj (jsAssign (spreadEntries ((lookupField "metadata" base).getD .undef))
        "browser" (browserObj st)))
  else base

/-- Result of the `beforeSend` hook step: `none` when the hook returns a
falsy value, otherwise the normalized event with the hook result merged
onto it by `Object.assign`. -/
def hookStep (cfg : Config) (ev : List (String × JsonVal)) :
    Option (List (String × JsonVal)) :=
  match cfg.beforeSend with
  | none => some ev
  | some f =>
      if truthy (f (.jobj ev)) then some (objAssign ev (f (.jobj ev))) else none

/-- Sampling check of `captureEvent`:
`options.sampleRate !== undefined && Math.random() > options.sampleRate`. -/
def sampledOut (cfg : Config) (inp : Fresh) : Bool :=
  match cfg.sampleRate with
  | some r => decide (inp.rnd > r)
  | none => false

/-- Embedding of `EventManager.captureEvent`: recursion guards, shape
detection and normalization, browser-metadata merge, `beforeSend` hook,
sampling, enqueue, and the batch-size threshold test.  The
threshold-triggered `flush()` call itself is modelled by `flushCall`
below; `wantsFlush` reports that it would run. -/
def captureEvent (cfg : Config) (st : MgrState) (inp : Fresh) (p : PartialEvent) :
    CapResult :=
  if st.isSendingLogs then ⟨.jnull, st.queue, false⟩
  else if msgHasMarker p.message then ⟨.jnull, st.queue, false⟩
  else
    match hookStep cfg (normalizedEvent cfg st inp p) with
    | none => ⟨.jnull, st.queue, false⟩
    | some ev2 =>
        if sampledOut cfg inp then ⟨.jnull, st.queue, false⟩
        else
          let q := st.queue ++ [.jobj ev2]
          let wants :=
            match cfg.maxBatchSize with
            | some m => decide (m ≠ 0) && decide (q.length ≥ m)
            | none => false
          ⟨(lookupField "id" ev2).getD .undef, q, wants⟩

/-- Options record of `captureMessage`. -/
structure MsgOpts where
  level : JsonVal := .undef
  user : JsonVal := .undef
  metadata : JsonVal := .undef
  tags : JsonVal := .undef
  breadcrumbs : JsonVal := .undef
  trace_id : JsonVal := .undef
  span_id : JsonVal := .undef
  parent_span_id : JsonVal := (.undef)

/-- Partial event built by `captureMessage` (lines 241 to 274 of the
source) from a message string and its options. -/
def msgPartial (cfg : Config) (st : MgrState) (inp : Fresh) (message : String)
    (o : MsgOpts) : PartialEvent :=
  { id := .jstr inp.id1
    timestamp := .jstr inp.nowIso
    service_name := .jstr cfg.serviceName
    level := jsOr o.level (.jstr "INFO")
    message := .jstr message
    user_data := jsOrNull o.user
    metadata := jsOrNull o.metadata
    tags := jsOrNull o.tags
    session := sessionSnapshotMsg st
    duration_ms := .jnum 0
    code_location := .jobj [("file", .jstr ""), ("line", .jnum 0), ("function", .jstr "")]
    span_id := jsOr o.span_id (.jstr "")
    console := .jnull
    network := .jobj [("url", .jstr ""), ("method", .jstr ""), ("status_code", .jnum 0),
                      ("duration", .jnum 0)]
    trace_id := jsOr o.trace_id (.jstr "")
    parent_span_id := jsOr o.parent_span_id (.jstr "")
    error_type := .jstr ""
    stack_trace := .jobj [("raw", .jstr "")]
    system_metrics := .jobj [("cpu_usage", .jnull), ("memory_usage", .jnull)]
    context := .jobj []
    instance_id := .jstr ""
    error_details := .jnull
    exception := .jobj [("type", .jstr ""), ("value", .jstr ""), ("stacktrace", .jstr "")]
    thread_id := .jstr ""
    file := .jstr ""
    line := .jnum 0
    function := .jstr ""
    root_cause := .jstr ""
    breadcrumbs := jsOr o.breadcrumbs (.jarr st.breadcrumbs) }

/-- Embedding of `EventManager.captureMessage`: sender guard, event
construction, delegation to `captureEvent`, and the trailing
`captureEvent(event) || empty string`. -/
def captureMessage (cfg : Config) (st : MgrState) (inp : Fresh) (message : String)
    (o : MsgOpts) : JsonVal × List JsonVal :=
  if st.isSendingLogs then (.jstr "", st.queue)
  else
    let r := captureEvent cfg st inp (msgPartial cfg st inp message o)
    (if truthy r.ret then r.ret else .jstr "", r.queue)

/-- Error object reaching `captureException` after the
`error instanceof Error` wrapping: every call site operates on some
error object with a name, a message and an optional stack string. -/
structure ErrObj where
  name : String := "Error"
  message : String := ""
  stack : Option String := none

/-- Options record of `captureException` (a partial event plus the
`user` shorthand). -/
structure ExcOpts where
  level : JsonVal := .undef
  message : JsonVal := .undef
  instance_id : JsonVal := .undef
  context : JsonVal := .undef
  thread_id : JsonVal := .undef
  file : JsonVal := .undef
  line : JsonVal := .undef
  function : JsonVal := .undef
  trace_id : JsonVal := .undef
  span_id : JsonVal := .undef
  parent_span_id : JsonVal := .undef
  duration_ms : JsonVal := .undef
  error_type : JsonVal := .undef
  root_cause : JsonVal := .undef
  system_metrics : JsonVal := .undef
  code_location : JsonVal := .undef
  error_details : JsonVal := .undef
  metadata : JsonVal := .undef
  tags : JsonVal := .undef
  user : JsonVal := (.undef)

/-- Partial event built by `captureException` (lines 180 to 218 of the
source). -/
def excPartial (cfg : Config) (st : MgrState) (inp : Fresh) (err : ErrObj)
    (o : ExcOpts) : PartialEvent :=
  { id := .jstr inp.id1
    timestamp := .jstr inp.nowIso
    service_name := .jstr cfg.serviceName
    level := jsOr o.level (.jstr "ERROR")
    message := jsOr o.message (.jstr err.message)
    instance_id := jsOrNull o.instance_id
    context := jsOrNull o.context
    thread_id := jsOrNull o.thread_id
    file := jsOr o.file (.jstr "")
    line := jsOr o.line (.jnum 0)
    function := jsOr o.function (.jstr "")
    trace_id := jsOr o.trace_id (.jstr "")
    span_id := jsOr o.span_id (.jstr "")
    parent_span_id := jsOr o.parent_span_id (.jstr "")
    duration_ms := jsOr o.duration_ms (.jnum 0)
    error_type := jsOr o.error_type (.jstr err.name)
    stack_trace :=
      match err.stack with
      | some s => if s != "" then .jobj [("raw", .jstr s)] else .jnull
      | none => .jnull
    user_data := jsOrNull o.user
    root_cause := jsOr o.root_cause (.jstr "")
    system_metrics := jsOrNull o.system_metrics
    code_location := jsOrNull o.code_location
    session := sessionSnapshotMsg st
    error_details := jsOrNull o.error_details
    metadata := jsOrNull o.metadata
    tags := jsOrNull o.tags
    exception := .jobj [("type", .jstr err.name), ("value", .jstr err.message),
                        ("stacktrace", match err.stack with
                                       | some s => .jstr s
                                       | none => .undef)]
    network := .jnull
    console := .jnull
    breadcrumbs := .jarr st.breadcrumbs }

/-- Embedding of `EventManager.captureException`: sender guard, SDK
self-origin stack filter, event construction, delegation to
`captureEvent` with an empty-string fallback. -/
def captureException (cfg : Config) (st : MgrState) (inp : Fresh) (err : ErrObj)
    (o : ExcOpts) : JsonVal × List JsonVal :=
  if st.isSendingLogs then (.jstr "", st.queue)
  else if (match err.stack with
           | some s => strContains s "EchologClient"
           | none => false) then (.jstr "", st.queue)
  else
    let r := captureEvent cfg st inp (excPartial cfg st inp err o)
    (if truthy r.ret then r.ret else .jstr "", r.queue)

/-! Embedding of `EventManager.flush` (lines 279 to 304).  The method is
split at its asynchronous boundaries: `flushCall` is the synchronous
body up to handing the snapshot to the delivery engine, `flushOnFailure`
is the `catch` continuation that prepends the snapshot, and
`flushOnSettled` is the `finally` continuation clearing the flag. -/

/-- Queue state of the flush scheduler. -/
structure QState where
  queue : List JsonVal
  isFlushing : Bool

/-- Synchronous body of `flush`: guarded by `isFlushing` and emptiness,
it snapshots and clears the queue and hands the snapshot to the delivery
engine; the returned option is the batch handed over, `none` when the
engine is not invoked.  On the sync path (`sendEventsSync`) the flag is
reset before returning; on the async path it stays set until the send
settles. -/
def flushCall (sync hasNavigator : Bool) (s : QState) : QState × Option (List JsonVal) :=
  if s.isFlushing || s.queue.isEmpty then (s, none)
  else if sync && hasNavigator then (⟨[], false⟩, some s.queue)
  else (⟨[], true⟩, some s.queue)

/-- Catch continuation of the async flush: the snapshot is prepended to
whatever has been enqueued meanwhile. -/
def flushOnFailure (eventsToSend : List JsonVal) (s : QState) : QState :=
  ⟨eventsToSend ++ s.queue, s.isFlushing⟩

/-- Finally continuation of the async flush: the in-flight flag is
cleared. -/
def flushOnSettled (s : QState) : QState :=
  ⟨s.queue, false⟩

/-! Embedding of `EventSender.sendEvents` (src/client/EventSender.ts,
lines 41 to 91).  The retry counter `this.retryCount` is instance state
threaded through the call; the outcome of each `fetch` attempt (network
result and HTTP status combined into success or failure) is an oracle
indexed by attempt number; `await`-ed backoff delays are recorded rather
than performed.  The `isSendingLogs` flag is set for the duration of the
whole call tree and reset by `finally`; claims about the flag read it
from `MgrState` directly. -/

/-- Sender options: `retryAttempts` with its `?? 3` default. -/
structure SenderOptions where
  retryAttempts : Option Nat := none
  debug : Bool := false

/-- Observable outcome of one `sendEvents` call: whether the promise
resolved, the retry counter left in the instance, and the backoff delays
awaited, in order, in milliseconds. -/
structure SendOutcome where
  resolved : Bool
  retryCountAfter : Nat
  delays : List Nat
deriving DecidableEq, Repr

/-- Try-catch-retry loop of `sendEvents`: a successful attempt resets
the counter and resolves; a failed attempt increments the counter, and
while the counter stays within `maxRetryAttempts` waits
`2 ^ retryCount * 1000` milliseconds and recurses, otherwise rethrows. -/
def sendEventsGo (maxRetryAttempts : Nat) (attemptOk : Nat → Bool) (attempt rc : Nat) :
    SendOutcome :=
  if attemptOk attempt then ⟨true, 0, []⟩
  else
    if h : rc + 1 ≤ maxRetryAttempts then
      let backoffDelay := 2 ^ (rc + 1) * 1000
      let rest := sendEventsGo maxRetryAttempts attemptOk (attempt + 1) (rc + 1)
      ⟨rest.resolved, rest.retryCountAfter, backoffDelay :: rest.delays⟩
    else ⟨false, rc + 1, []⟩
termination_by maxRetryAttempts + 1 - rc
decreasing_by omega

/-- Embedding of `EventSender.sendEvents`: an empty batch resolves
immediately without touching any state; otherwise the retry loop runs
with `maxRetryAttempts = options.retryAttempts ?? 3`, starting from the
current instance retry counter. -/
def sendEvents (opts : SenderOptions) (attemptOk : Nat → Bool) (events : List JsonVal)
    (retryCount : Nat) : SendOutcome :=
  if events.isEmpty then ⟨true, retryCount, []⟩
  else sendEventsGo (opts.retryAttempts.getD 3) attemptOk 0 retryCount

/-! Embedding of `OfflineManager.storeEvent` (src/client/OfflineManger.ts,
lines 42 to 81).  The object store is modelled as a list of records in
store iteration order. -/

/-- Offline record: an event persisted under its id (the store keyPath). -/
structure OfflineRec where
  id : String
  payload : String
deriving DecidableEq, Repr

/-- Cursor loop of the capacity branch as the source runs it: each
`onsuccess` firing deletes the record under the cursor and calls
`cursor.continue()`, which fires the handler again on the next record,
until the cursor is exhausted. -/
def cursorDeletePass : List OfflineRec → List OfflineRec
  | [] => []
  | _ :: rest => cursorDeletePass rest

/-- IndexedDB `store.add`: fails (and the failure is caught, leaving the
store unchanged) when the key already exists, otherwise appends. -/
def idbAdd (store : List OfflineRec) (ev : OfflineRec) : List OfflineRec :=
  if store.any (fun r => r.id == ev.id) then store else store ++ [ev]

/-- Embedding of `storeEvent`: when the record count is at or above
`maxEvents` the cursor pass runs before the add. -/
def storeEvent (store : List OfflineRec) (ev : OfflineRec) (maxEvents : Nat) :
    List OfflineRec :=
  if store.length ≥ maxEvents then idbAdd (cursorDeletePass store) ev
  else idbAdd store ev

/-- Behaviour the specification and the source comments describe for the
capacity branch: delete only the single oldest record before inserting.
Modelled from the spec for comparison with `storeEvent`. -/
def storeEventSpec (store : List OfflineRec) (ev : OfflineRec) (maxEvents : Nat) :
    List OfflineRec :=
  if store.length ≥ maxEvents then idbAdd (store.drop 1) ev
  else idbAdd store ev

/-! Embedding of `TransactionManager.finishSpan` (src/client/OfflineManger.ts,
lines 270 to 305), restricted to its mutation of the span record; the
lookup of the parent transaction and the emitted span event do not touch
the span and are omitted.  Clock readings (`new Date().toISOString()`,
`performance.now()`, the parse of `start_timestamp`, the optional heap
reading) are oracle parameters; times are modelled as integers. -/

/-- Metadata fields of a span touched by the manager. -/
structure SpanMeta where
  startTime : Option Int := none
  duration : Option Int := none
  memoryUsage : Option Int := none
deriving DecidableEq, Repr

/-- Span record, mirroring the `Span` interface. -/
structure SpanRec where
  span_id : String
  parent_span_id : Option String := none
  description : String := ""
  op : Option String := none
  start_timestamp : String := ""
  end_timestamp : Option String := none
  duration_ms : Option Int := none
  metadata : Option SpanMeta := none
deriving DecidableEq, Repr

/-- Truthiness of an optional string field (absent and empty are falsy). -/
def optStrTruthy : Option String → Bool
  | some s => s != ""
  | none => false

/-- Embedding of `finishSpan`: guarded by `!span.end_timestamp`, it sets
the end timestamp, computes `duration_ms` from `performance.now()` and
`metadata?.startTime || parsed start_timestamp`, and updates the
metadata duration and heap usage. -/
def finishSpan (sp : SpanRec) (nowIso : String) (endTime : Int) (startParsedMs : Int)
    (memUsage : Option Int) : SpanRec :=
  if optStrTruthy sp.end_timestamp then sp
  else
    let startMs :=
      match sp.metadata with
      | some m =>
          match m.startTime with
          | some t => if t != 0 then t else startParsedMs
          | none => startParsedMs
      | none => startParsedMs
    let dur := endTime - startMs
    let md :=
      match sp.metadata with
      | some m =>
          some { m with
                 duration := some dur
                 memoryUsage := match memUsage with
                                | some x => some x
                                | none => m.memoryUsage }
      | none => none
    { sp with end_timestamp := some nowIso, duration_ms := some dur, metadata := md }

/-! Definitions used to state the schema-completeness and identity
claims about `captureEvent`. -/

/-- Fields declared by the canonical `LogEvent` schema
(src/core/types.ts), in declaration order. -/
def schemaFields : List String :=
  ["id", "timestamp", "service_name", "instance_id", "level", "message", "context",
   "thread_id", "file", "line", "function", "trace_id", "span_id", "parent_span_id",
   "project_id", "duration_ms", "error_type", "stack_trace", "user_data", "root_cause",
   "system_metrics", "code_location", "session", "error_details", "metadata", "tags",
   "exception", "network", "console", "breadcrumbs"]

/-- Keys of the transaction extension that the source may leave
`undefined` on a normalized event (`name` is copied raw, `end_timestamp`
defaults to `undefined`); neither belongs to the `LogEvent` schema. -/
def undefAllowedKeys : List String := ["name", "end_timestamp"]

/-- Entry-wise invariant of a normalized event object: no value is
`undefined`, except possibly under the transaction-extension keys. -/
def NoUndefExcept (l : List (String × JsonVal)) : Prop :=
  ∀ kv ∈ l, kv.1 ∈ undefAllowedKeys ∨ kv.2 ≠ JsonVal.undef

/-- Hypothesis on the configured `beforeSend` hook used by the
schema-completeness claim: an event object returned by the hook carries
no `undefined` field values.  Any hook well typed against `LogEvent`
satisfies this for every declared field. -/
def GoodHook (cfg : Config) : Prop :=
  ∀ f, cfg.beforeSend = some f →
    ∀ e kvs, f e = JsonVal.jobj kvs → ∀ kv ∈ kvs, kv.2 ≠ JsonVal.undef

/-- Hypothesis on the configured `beforeSend` hook used by the identity
claim: merging the hook result onto a normalized event leaves the `id`
and `timestamp` properties unchanged (in particular any hook that does
not rewrite those fields). -/
def HookKeepsIdentity (cfg : Config) : Prop :=
  ∀ f, cfg.beforeSend = some f →
    ∀ l, truthy (f (.jobj l)) = true →
      lookupField "id" (objAssign l (f (.jobj l))) = lookupField "id" l ∧
      lookupField "timestamp" (objAssign l (f (.jobj l))) = lookupField "timestamp" l

/-! Concrete instances used by the witness theorems. -/

/-- Witness configuration: required options only, no hook, no sampling. -/
def cfgW : Config :=
  { serviceName := "svc", projectId := "proj-1", environment := "production" }

/-- Witness manager state: idle sender, empty queue, no session. -/
def stW : MgrState := {}

/-- Witness manager state with the delivery engine mid-send. -/
def stSendingW : MgrState := { isSendingLogs := true }

/-- Witness oracle. -/
def inpW : Fresh := {}

/-- Witness partial event for the schema-completeness claim. -/
def pW : PartialEvent := { message := .jstr "hello world" }

/-- Witness partial event carrying its own id and timestamp. -/
def pIdW : PartialEvent :=
  { id := .jstr "caller-id-1", timestamp := .jstr "2024-05-05T10:00:00.000Z",
    message := .jstr "kept" }

/-- Witness partial event whose message contains the internal debug
marker. -/
def pMarkW : PartialEvent := { message := .jstr "x [Echolog Debug] y" }

/-- Entry list of the event enqueued by the schema-completeness witness
run, extracted from the queue `captureEvent` returns. -/
def wKvs : List (String × JsonVal) :=
  match (captureEvent cfgW stW inpW pW).queue with
  | [.jobj l] => l
  | _ => []

/-- Entry list of the event enqueued by the identity witness run. -/
def wIdKvs : List (String × JsonVal) :=
  match (captureEvent cfgW stW inpW pIdW).queue with
  | [.jobj l] => l
  | _ => []

/-! Theorems.  Claims C1 to C10 of the specification are settled below;
helper lemmas shared between claims come first. -/

/-- C5: the claim states that `storeEvent` at capacity deletes exactly
the single oldest record.  The cursor handler instead calls
`cursor.continue()` after each delete, so the pass removes every record:
with three stored records and `maxCount = 3`, the store afterwards holds
only the new event, not the two younger records the claim (and the
source comments and the specification) require. -/
theorem storeEvent_at_capacity_deletes_every_record :
    storeEvent [⟨"a", "1"⟩, ⟨"b", "2"⟩, ⟨"c", "3"⟩] ⟨"d", "4"⟩ 3 = [⟨"d", "4"⟩] ∧
    storeEvent [⟨"a", "1"⟩, ⟨"b", "2"⟩, ⟨"c", "3"⟩] ⟨"d", "4"⟩ 3 ≠
      storeEventSpec [⟨"a", "1"⟩, ⟨"b", "2"⟩, ⟨"c", "3"⟩] ⟨"d", "4"⟩ 3 := by
  constructor <;> decide

/-- C6: a flush issued while one is in flight, or while the queue is
empty, returns leaving the state untouched and never hands a batch to
the delivery engine. -/
theorem flush_reentrant_or_empty_is_noop (sync hasNavigator : Bool) (s : QState)
    (h : s.isFlushing = true ∨ s.queue = []) :
    flushCall sync hasNavigator s = (s, none) := by
  rcases h with h | h <;> simp [flushCall, h]

/-- Witness for C6 at a concrete in-flight state. -/
theorem flush_reentrant_or_empty_is_noop_witness :
    flushCall false false ⟨[JsonVal.jnull], true⟩ = (⟨[JsonVal.jnull], true⟩, none) :=
  flush_reentrant_or_empty_is_noop false false ⟨[JsonVal.jnull], true⟩ (Or.inl rfl)

/-- C3: an async flush snapshots the whole queue and clears it before
handing the batch over; when delivery fails, the snapshot is prepended
to whatever was enqueued during the send, so the next flush sends the
original events first, in order, followed by the newer ones. -/
theorem flush_snapshot_prepend_order (hasNavigator : Bool) (q mid : List JsonVal)
    (hq : q ≠ []) :
    flushCall false hasNavigator ⟨q, false⟩ = (⟨[], true⟩, some q) ∧
    flushOnSettled (flushOnFailure q ⟨mid, true⟩) = ⟨q ++ mid, false⟩ ∧
    flushCall false hasNavigator ⟨q ++ mid, false⟩ = (⟨[], true⟩, some (q ++ mid)) := by
  refine ⟨?_, rfl, ?_⟩ <;> simp [flushCall, hq]

/-- Witness for C3 with events E1, E2 flushed and E3 enqueued during the
failed send. -/
theorem flush_snapshot_prepend_order_witness :
    flushCall false false ⟨[JsonVal.jstr "E1", JsonVal.jstr "E2"], false⟩ =
      (⟨[], true⟩, some [JsonVal.jstr "E1", JsonVal.jstr "E2"]) ∧
    flushOnSettled (flushOnFailure [JsonVal.jstr "E1", JsonVal.jstr "E2"]
        ⟨[JsonVal.jstr "E3"], true⟩) =
      ⟨[JsonVal.jstr "E1", JsonVal.jstr "E2", JsonVal.jstr "E3"], false⟩ ∧
    flushCall false false ⟨[JsonVal.jstr "E1", JsonVal.jstr "E2", JsonVal.jstr "E3"], false⟩ =
      (⟨[], true⟩, some [JsonVal.jstr "E1", JsonVal.jstr "E2", JsonVal.jstr "E3"]) :=
  flush_snapshot_prepend_order false [JsonVal.jstr "E1", JsonVal.jstr "E2"]
    [JsonVal.jstr "E3"] (by simp)

/-- C8: finishing a span is idempotent: the first `finishSpan` call sets
the end timestamp (to the nonempty ISO clock reading) and the duration,
and any later call returns the span entirely unchanged. -/
theorem finishSpan_idempotent (sp : SpanRec) (t1 : String) (e1 s1 : Int)
    (m1 : Option Int) (hopen : optStrTruthy sp.end_timestamp = false) (ht1 : t1 ≠ "") :
    (finishSpan sp t1 e1 s1 m1).end_timestamp = some t1 ∧
    (finishSpan sp t1 e1 s1 m1).duration_ms.isSome = true ∧
    ∀ (t2 : String) (e2 s2 : Int) (m2 : Option Int),
      finishSpan (finishSpan sp t1 e1 s1 m1) t2 e2 s2 m2 = finishSpan sp t1 e1 s1 m1 := by
  have hguard : optStrTruthy (some t1) = true := by simp [optStrTruthy, ht1]
  refine ⟨?_, ?_, ?_⟩ <;> simp [finishSpan, hopen, hguard]

/-- Span witness for C8. -/
def spanW : SpanRec :=
  { span_id := "s1", start_timestamp := "2024-05-05T10:00:00.000Z",
    metadata := some { startTime := some 1000 } }

/-- Witness for C8: a concrete span finished twice keeps the values of
the first finish. -/
theorem finishSpan_idempotent_witness :
    (finishSpan spanW "2024-05-05T10:00:01.000Z" 1500 900 none).end_timestamp =
      some "2024-05-05T10:00:01.000Z" ∧
    finishSpan (finishSpan spanW "2024-05-05T10:00:01.000Z" 1500 900 none)
        "2024-05-05T10:00:02.000Z" 2500 900 (some 7) =
      finishSpan spanW "2024-05-05T10:00:01.000Z" 1500 900 none :=
  ⟨(finishSpan_idempotent spanW "2024-05-05T10:00:01.000Z" 1500 900 none rfl
      (by decide)).1,
   (finishSpan_idempotent spanW "2024-05-05T10:00:01.000Z" 1500 900 none rfl
      (by decide)).2.2 "2024-05-05T10:00:02.000Z" 2500 900 (some 7)⟩

/-- Helper for C4 and C9: when every attempt fails, the retry loop
starting at counter `rc ≤ m` performs one backoff per remaining retry
and ends rejected with the counter at `m + 1`. -/
theorem sendEventsGo_allFail (m : Nat) (o : Nat → Bool) (ho : ∀ i, o i = false) :
    ∀ k rc a, m - rc = k → rc ≤ m →
      sendEventsGo m o a rc =
        ⟨false, m + 1, (List.range k).map (fun i => 2 ^ (rc + 1 + i) * 1000)⟩ := by
  intro k
  induction k with
  | zero =>
    intro rc a hk hle
    have hrc : rc = m := by omega
    rw [sendEventsGo]
    simp [ho a, hrc]
  | succ k ih =>
    intro rc a hk hle
    have h1 : rc + 1 ≤ m := by omega
    rw [sendEventsGo]
    simp only [ho a, Bool.false_eq_true, if_false, h1, dif_pos]
    rw [ih (rc + 1) (a + 1) (by omega) h1]
    simp only [SendOutcome.mk.injEq]
    refine ⟨trivial, trivial, ?_⟩
    rw [List.range_succ_eq_map, List.map_cons, List.map_map]
    simp only [List.cons.injEq]
    refine ⟨by norm_num, ?_⟩
    apply List.map_congr_left
    intro i _
    have h2 : rc + 1 + 1 + i = rc + 1 + (i + 1) := by omega
    simp [Function.comp, h2]

/-- C4: on a non-empty batch with every attempt failing, `sendEvents`
performs one retry per configured attempt (default 3), waiting
`2 ^ attempt * 1000` milliseconds before the attempt numbered `attempt`,
and rejects once the attempts are exhausted. -/
theorem sendEvents_retries_with_backoff_then_rejects (opts : SenderOptions)
    (attemptOk : Nat → Bool) (events : List JsonVal) (hne : events ≠ [])
    (hfail : ∀ i, attemptOk i = false) :
    sendEvents opts attemptOk events 0 =
      ⟨false, opts.retryAttempts.getD 3 + 1,
        (List.range (opts.retryAttempts.getD 3)).map (fun i => 2 ^ (i + 1) * 1000)⟩ := by
  unfold sendEvents
  simp only [List.isEmpty_eq_true, hne, if_false]
  rw [sendEventsGo_allFail (opts.retryAttempts.getD 3) attemptOk hfail
      (opts.retryAttempts.getD 3) 0 0 (by omega) (by omega)]
  simp only [SendOutcome.mk.injEq]
  refine ⟨trivial, trivial, ?_⟩
  apply List.map_congr_left
  intro i _
  have h2 : 0 + 1 + i = i + 1 := by omega
  rw [h2]

/-- Sender options witness (no `retryAttempts` configured, so the
default of 3 applies). -/
def sOptsW : SenderOptions := {}

/-- Outcome oracle on which every attempt fails. -/
def alwaysFail : Nat → Bool := fun _ => false

/-- Outcome oracle on which every attempt succeeds. -/
def alwaysOk : Nat → Bool := fun _ => true

/-- Batch witness. -/
def evBatchW : List JsonVal := [JsonVal.jstr "e1"]

/-- Witness for C4: with the default of 3 attempts, the failing batch is
retried after 2000, 4000 and 8000 milliseconds and then rejected. -/
theorem sendEvents_retries_with_backoff_then_rejects_witness :
    sendEvents sOptsW alwaysFail evBatchW 0 = ⟨false, 4, [2000, 4000, 8000]⟩ := by
  have h := sendEvents_retries_with_backoff_then_rejects sOptsW alwaysFail evBatchW
    (by simp [evBatchW]) (fun i => rfl)
  simpa [sOptsW, List.range_succ] using h

/-- C9: the retry counter is instance state: a run that exhausts its
retries leaves the counter at the ceiling plus one, a subsequent call
whose first attempt fails then rejects immediately with no backoff, and
only a successful attempt resets the counter to zero. -/
theorem sendEvents_counter_not_reset_after_terminal_failure (opts : SenderOptions)
    (attemptOk : Nat → Bool) (events : List JsonVal) (hne : events ≠ []) :
    ((∀ i, attemptOk i = false) →
      (sendEvents opts attemptOk events 0).retryCountAfter =
        opts.retryAttempts.getD 3 + 1) ∧
    (∀ rc, opts.retryAttempts.getD 3 ≤ rc → attemptOk 0 = false →
      sendEvents opts attemptOk events rc = ⟨false, rc + 1, []⟩) ∧
    (attemptOk 0 = true → ∀ rc, sendEvents opts attemptOk events rc = ⟨true, 0, []⟩) := by
  refine ⟨?_, ?_, ?_⟩
  · intro hfail
    unfold sendEvents
    simp only [List.isEmpty_eq_true, hne, if_false]
    rw [sendEventsGo_allFail (opts.retryAttempts.getD 3) attemptOk hfail
        (opts.retryAttempts.getD 3) 0 0 (by omega) (by omega)]
  · intro rc hrc hf0
    unfold sendEvents
    simp only [List.isEmpty_eq_true, hne, if_false]
    rw [sendEventsGo]
    have h1 : ¬ (rc + 1 ≤ opts.retryAttempts.getD 3) := by omega
    simp [hf0, h1]
  · intro hok rc
    unfold sendEvents
    simp only [List.isEmpty_eq_true, hne, if_false]
    rw [sendEventsGo]
    simp [hok]

/-- Witness for C9: after the terminal failure the counter sits at 4, a
further failing call rejects at once without delays, and a successful
call resets the counter to zero. -/
theorem sendEvents_counter_not_reset_after_terminal_failure_witness :
    (sendEvents sOptsW alwaysFail evBatchW 0).retryCountAfter = 4 ∧
    sendEvents sOptsW alwaysFail evBatchW 4 = ⟨false, 5, []⟩ ∧
    sendEvents sOptsW alwaysOk evBatchW 4 = ⟨true, 0, []⟩ :=
  ⟨(sendEvents_counter_not_reset_after_terminal_failure sOptsW alwaysFail evBatchW
      (by simp [evBatchW])).1 (fun i => rfl),
   (sendEvents_counter_not_reset_after_terminal_failure sOptsW alwaysFail evBatchW
      (by simp [evBatchW])).2.1 4 (by decide) rfl,
   (sendEvents_counter_not_reset_after_terminal_failure sOptsW alwaysOk evBatchW
      (by simp [evBatchW])).2.2 rfl 4⟩

/-- C2: while the delivery engine reports it is mid-send, `captureEvent`
returns `null` and `captureMessage` and `captureException` return the
empty string, all leaving the queue unchanged; a partial event whose
message contains the internal debug marker is likewise dropped with the
queue unchanged. -/
theorem capture_noop_while_sending (cfg : Config) (st : MgrState) (inp : Fresh)
    (p : PartialEvent) (message : String) (mo : MsgOpts) (err : ErrObj) (eo : ExcOpts) :
    (st.isSendingLogs = true →
      captureEvent cfg st inp p = ⟨.jnull, st.queue, false⟩ ∧
      captureMessage cfg st inp message mo = (.jstr "", st.queue) ∧
      captureException cfg st inp err eo = (.jstr "", st.queue)) ∧
    (msgHasMarker p.message = true →
      captureEvent cfg st inp p = ⟨.jnull, st.queue, false⟩) := by
  constructor
  · intro h
    refine ⟨?_, ?_, ?_⟩ <;>
      simp [captureEvent, captureMessage, captureException, h]
  · intro h
    by_cases hs : st.isSendingLogs <;> simp [captureEvent, hs, h]

/-- Witness for C2 at a mid-send state and at a marker-bearing event. -/
theorem capture_noop_while_sending_witness :
    captureEvent cfgW stSendingW inpW pW = ⟨.jnull, [], false⟩ ∧
    captureMessage cfgW stSendingW inpW "m" {} = (.jstr "", []) ∧
    captureException cfgW stSendingW inpW {} {} = (.jstr "", []) ∧
    captureEvent cfgW stW inpW pMarkW = ⟨.jnull, [], false⟩ := by
  have h := capture_noop_while_sending cfgW stSendingW inpW pW "m" {} {} {}
  have h2 := capture_noop_while_sending cfgW stW inpW pMarkW "m" {} {} {}
  exact ⟨(h.1 rfl).1, (h.1 rfl).2.1, (h.1 rfl).2.2, h2.2 (by decide)⟩

/-! Machinery for claim C7: a structural induction principle for the
nested inductive `JsonVal`, and the correspondence between the source
transform loop and the spec-side entry rule. -/

/-- Structural induction over `JsonVal`, with membership hypotheses for
the nested lists; proved by strong induction on the size. -/
theorem jsonIndStrong (P : JsonVal → Prop)
    (hundef : P .undef) (hnull : P .jnull)
    (hbool : ∀ b, P (.jbool b)) (hnum : ∀ n, P (.jnum n)) (hstr : ∀ s, P (.jstr s))
    (harr : ∀ xs, (∀ x ∈ xs, P x) → P (.jarr xs))
    (hobj : ∀ kvs, (∀ kv ∈ kvs, P (Prod.snd kv)) → P (.jobj kvs)) :
    ∀ v, P v := by
  have key : ∀ n v, sizeOf v ≤ n → P v := by
    intro n
    induction n with
    | zero => intro v hv; exfalso; cases v <;> simp at hv
    | succ n ih =>
      intro v hv
      match v with
      | .undef => exact hundef
      | .jnull => exact hnull
      | .jbool b => exact hbool b
      | .jnum m => exact hnum m
      | .jstr s => exact hstr s
      | .jarr xs =>
        refine harr xs (fun x hx => ih x ?_)
        have h1 := List.sizeOf_lt_of_mem hx
        simp at hv
        omega
      | .jobj kvs =>
        refine hobj kvs (fun kv hkv => ih kv.2 ?_)
        have h1 := List.sizeOf_lt_of_mem hkv
        have h2 : sizeOf kv.2 < sizeOf kv := by
          obtain ⟨a, b⟩ := kv; simp
        simp at hv
        omega
  exact fun v => key (sizeOf v) v le_rfl

/-- Assigning a fresh key appends the entry. -/
theorem jsAssign_of_not_mem (l : List (String × JsonVal)) (k : String) (v : JsonVal)
    (h : k ∉ l.map Prod.fst) : jsAssign l k v = l ++ [(k, v)] := by
  induction l with
  | nil => rfl
  | cons e rest ih =>
    obtain ⟨k1, v1⟩ := e
    simp only [List.map_cons, List.mem_cons] at h
    push_neg at h
    have hne : k1 ≠ k := fun hh => h.1 hh.symm
    simp [jsAssign, hne, ih h.2]

/-- No-duplicate test agrees with `List.Nodup`. -/
theorem nodupKeysB_iff (l : List String) : nodupKeysB l = true ↔ l.Nodup := by
  induction l with
  | nil => simp [nodupKeysB]
  | cons k rest ih => simp [nodupKeysB, List.nodup_cons, ih, List.elem_iff]

/-- Annotation preserves the (renamed) key list. -/
theorem transformJsonEntries_keys (kvs : List (String × JsonVal)) :
    (transformJsonEntries kvs).map (fun e => fixKey e.1) =
      kvs.map (fun kv => fixKey kv.1) := by
  induction kvs with
  | nil => rfl
  | cons e rest ih =>
    obtain ⟨k, v⟩ := e
    simp [transformJsonEntries, ih]

/-- The keys of the kept entries form a sublist of the renamed keys of
all entries. -/
theorem keptEntries_keys_sublist (hasId : Bool)
    (ents : List (String × JsonVal × JsonVal)) :
    List.Sublist ((keptEntries hasId ents).map Prod.fst)
      (ents.map (fun e => fixKey e.1)) := by
  induction ents with
  | nil => simp [keptEntries]
  | cons e rest ih =>
    obtain ⟨k, v, tv⟩ := e
    simp only [keptEntries, List.map_cons]
    by_cases hb1 : k = "level" ∧ v.isStr = true ∧ hasId = true
    · rw [if_pos hb1]; simpa using List.Sublist.cons₂ (fixKey k) ih
    · rw [if_neg hb1]
      by_cases hb2 : k = "level" ∧ v.isStr = true
      · rw [if_pos hb2]; exact List.Sublist.cons (fixKey k) ih
      · rw [if_neg hb2]
        by_cases hb3 : v.isUndef = false
        · rw [if_pos (by simp [hb3])]; simpa using List.Sublist.cons₂ (fixKey k) ih
        · rw [if_neg (by simpa using hb3)]; exact List.Sublist.cons (fixKey k) ih

/-- The transform loop with no key collisions among the kept entries is
plain accumulation: it appends the kept entries to the accumulator. -/
theorem buildObj_append (hasId : Bool) :
    ∀ (ents : List (String × JsonVal × JsonVal)) (acc : List (String × JsonVal)),
      ((keptEntries hasId ents).map Prod.fst).Nodup →
      (∀ k ∈ (keptEntries hasId ents).map Prod.fst, k ∉ acc.map Prod.fst) →
      buildObj hasId ents acc = acc ++ keptEntries hasId ents := by
  intro ents
  induction ents with
  | nil => intro acc _ _; simp [buildObj, keptEntries]
  | cons e rest ih =>
    intro acc hnd hdisj
    obtain ⟨k, v, tv⟩ := e
    have step : ∀ val : JsonVal,
        keptEntries hasId ((k, v, tv) :: rest) =
          (fixKey k, val) :: keptEntries hasId rest →
        buildObj hasId ((k, v, tv) :: rest) acc =
          buildObj hasId rest (jsAssign acc (fixKey k) val) →
        buildObj hasId ((k, v, tv) :: rest) acc =
          acc ++ keptEntries hasId ((k, v, tv) :: rest) := by
      intro val hKept hStep
      rw [hKept] at hnd hdisj ⊢
      simp only [List.map_cons, List.nodup_cons] at hnd
      have hd1 : fixKey k ∉ acc.map Prod.fst := hdisj (fixKey k) (by simp)
      have hdisj2 : ∀ k2 ∈ (keptEntries hasId rest).map Prod.fst,
          k2 ∉ (acc ++ [(fixKey k, val)]).map Prod.fst := by
        intro k2 hk2
        simp only [List.map_append, List.mem_append, List.map_cons, List.map_nil,
          List.mem_singleton, not_or]
        exact ⟨hdisj k2 (by simp [hk2]), fun hh => hnd.1 (hh ▸ hk2)⟩
      rw [hStep, jsAssign_of_not_mem acc (fixKey k) val hd1,
        ih (acc ++ [(fixKey k, val)]) hnd.2 hdisj2]
      simp
    have dropStep :
        keptEntries hasId ((k, v, tv) :: rest) = keptEntries hasId rest →
        buildObj hasId ((k, v, tv) :: rest) acc = buildObj hasId rest acc →
        buildObj hasId ((k, v, tv) :: rest) acc =
          acc ++ keptEntries hasId ((k, v, tv) :: rest) := by
      intro hKept hStep
      rw [hKept] at hnd hdisj ⊢
      rw [hStep]
      exact ih acc hnd hdisj
    by_cases hb1 : k = "level" ∧ v.isStr = true ∧ hasId = true
    · refine step v ?_ ?_
      · simp only [keptEntries]; rw [if_pos hb1]
      · simp only [buildObj]; rw [if_pos hb1]
    · by_cases hb2 : k = "level" ∧ v.isStr = true
      · refine dropStep ?_ ?_
        · simp only [keptEntries]; rw [if_neg hb1, if_pos hb2]
        · simp only [buildObj]; rw [if_neg hb1, if_pos hb2]
      · by_cases hb3 : v.isUndef = false
        · refine step tv ?_ ?_
          · simp only [keptEntries]
            rw [if_neg hb1, if_neg hb2, if_pos (by simp [hb3])]
          · simp only [buildObj]
            rw [if_neg hb1, if_neg hb2, if_pos (by simp [hb3])]
        · refine dropStep ?_ ?_
          · simp only [keptEntries]
            rw [if_neg hb1, if_neg hb2, if_neg (by simpa using hb3)]
          · simp only [buildObj]
            rw [if_neg hb1, if_neg hb2, if_neg (by simpa using hb3)]

/-- Kept entries of the annotated list coincide with the spec-side entry
rule, given that values transform alike. -/
theorem keptEntries_eq_spec (hasId : Bool) (kvs : List (String × JsonVal))
    (h : ∀ kv ∈ kvs, transformJsonForServer (Prod.snd kv) =
      specTransformForServer (Prod.snd kv)) :
    keptEntries hasId (transformJsonEntries kvs) = specTransformEntries hasId kvs := by
  induction kvs with
  | nil => rfl
  | cons e rest ih =>
    obtain ⟨k, v⟩ := e
    have hv : transformJsonForServer v = specTransformForServer v := h (k, v) (by simp)
    have hrest := ih (fun kv hkv => h kv (by simp [hkv]))
    simp only [transformJsonEntries, keptEntries, specTransformEntries]
    by_cases hb1 : k = "level" ∧ v.isStr = true ∧ hasId = true
    · rw [if_pos hb1]
      have hvu : v.isUndef = false := by
        rcases hb1 with ⟨-, hs, -⟩
        cases v <;> simp_all [JsonVal.isStr, JsonVal.isUndef]
      rw [if_neg (by simp [hvu]), if_neg (by simp [hb1.2.2])]
      have hvs : specTransformForServer v = v := by
        rcases hb1 with ⟨-, hs, -⟩
        cases v <;> simp_all [JsonVal.isStr, specTransformForServer]
      rw [hrest, hvs]
    · rw [if_neg hb1]
      by_cases hb2 : k = "level" ∧ v.isStr = true
      · have hId : hasId = false := by
          cases hId2 : hasId
          · rfl
          · exact absurd ⟨hb2.1, hb2.2, hId2⟩ hb1
        have hvu : v.isUndef = false := by
          rcases hb2 with ⟨-, hs⟩
          cases v <;> simp_all [JsonVal.isStr, JsonVal.isUndef]
        rw [if_pos hb2, if_neg (by simp [hvu]), if_pos ⟨hb2.1, hb2.2, hId⟩]
        exact hrest
      · rw [if_neg hb2]
        by_cases hb3 : v.isUndef = false
        · rw [if_pos (by simp [hb3]), if_neg (by simp [hb3]),
            if_neg (fun hh => hb2 ⟨hh.1, hh.2.1⟩)]
          rw [hrest, hv]
        · have hvu : v.isUndef = true := by simpa using hb3
          rw [if_neg (by simpa using hb3), if_pos hvu]
          exact hrest

/-- Pointwise reading of the array well-formedness test. -/
theorem goodKeysListB_mem (xs : List JsonVal) (h : goodKeysListB xs = true) :
    ∀ x ∈ xs, goodKeysB x = true := by
  induction xs with
  | nil => simp
  | cons y ys ih =>
    simp only [goodKeysListB, Bool.and_eq_true] at h
    intro x hx
    rcases List.mem_cons.mp hx with rfl | hx
    · exact h.1
    · exact ih h.2 x hx

/-- Pointwise reading of the object well-formedness test. -/
theorem goodKeysEntriesB_mem (kvs : List (String × JsonVal))
    (h : goodKeysEntriesB kvs = true) : ∀ kv ∈ kvs, goodKeysB (Prod.snd kv) = true := by
  induction kvs with
  | nil => simp
  | cons e rest ih =>
    obtain ⟨k, v⟩ := e
    simp only [goodKeysEntriesB, Bool.and_eq_true] at h
    intro kv hkv
    rcases List.mem_cons.mp hkv with rfl | hkv
    · exact h.1
    · exact ih h.2 kv hkv

/-- Array case of the transform correspondence. -/
theorem transformJsonList_matches_spec (xs : List JsonVal)
    (ih : ∀ x ∈ xs, goodKeysB x = true →
      transformJsonForServer x = specTransformForServer x)
    (hg : goodKeysListB xs = true) :
    transformJsonList xs = specTransformList xs := by
  induction xs with
  | nil => rfl
  | cons y ys ihl =>
    simp only [goodKeysListB, Bool.and_eq_true] at hg
    simp only [transformJsonList, specTransformList, List.cons.injEq]
    exact ⟨ih y (by simp) hg.1, ihl (fun x hx => ih x (by simp [hx])) hg.2⟩

/-- C7: on every JSON value whose objects have no key collisions (also
after the `user` renaming), `transformJsonForServer` computes exactly
the transformation the specification describes: it renames keys
literally named `user` to `user_data`, omits entries with `undefined`
values, removes a string-valued `level` from objects without a sibling
`id` key, preserves `level` where an `id` sibling exists, and leaves all
other keys and primitive values unchanged. -/
theorem transformJsonForServer_matches_spec :
    ∀ v, goodKeysB v = true → transformJsonForServer v = specTransformForServer v := by
  intro v
  induction v using jsonIndStrong with
  | hundef => intro _; rfl
  | hnull => intro _; rfl
  | hbool b => intro _; rfl
  | hnum n => intro _; rfl
  | hstr s => intro _; rfl
  | harr xs ih =>
    intro hg
    simp only [goodKeysB] at hg
    simp only [transformJsonForServer, specTransformForServer, JsonVal.jarr.injEq]
    exact transformJsonList_matches_spec xs ih hg
  | hobj kvs ih =>
    intro hg
    simp only [goodKeysB, Bool.and_eq_true] at hg
    have hmem := goodKeysEntriesB_mem kvs hg.2
    have hpt : ∀ kv ∈ kvs, transformJsonForServer (Prod.snd kv) =
        specTransformForServer (Prod.snd kv) :=
      fun kv hkv => ih kv hkv (hmem kv hkv)
    simp only [transformJsonForServer, specTransformForServer, JsonVal.jobj.injEq]
    rw [buildObj_append (kvs.any (fun kv => kv.1 = "id")) (transformJsonEntries kvs) []
      ?_ (by simp)]
    · rw [List.nil_append]
      exact keptEntries_eq_spec _ kvs hpt
    · have hnd : (kvs.map (fun kv => fixKey kv.1)).Nodup :=
        (nodupKeysB_iff _).mp hg.1
      have hsub := keptEntries_keys_sublist (kvs.any (fun kv => kv.1 = "id"))
        (transformJsonEntries kvs)
      rw [transformJsonEntries_keys] at hsub
      exact hnd.sublist hsub

/-- Witness value for C7: a root object with an `id` sibling keeping its
`level`, a renamed `user` object, a dropped `undefined` entry, and a
dropped nested string `level`. -/
def vBodyW : JsonVal :=
  .jobj [("id", .jstr "evt-1"), ("level", .jstr "INFO"), ("x", .undef),
         ("user", .jobj [("level", .jstr "nested"), ("n", .jnum 3), ("y", .undef)])]

/-- Witness for C7 at `vBodyW`. -/
theorem transformJsonForServer_matches_spec_witness :
    goodKeysB vBodyW = true ∧
    transformJsonForServer vBodyW = specTransformForServer vBodyW :=
  ⟨rfl, transformJsonForServer_matches_spec vBodyW rfl⟩

/-! Machinery for claims C1 and C10 about `captureEvent`. -/

/-- Truthy values are never `undefined`. -/
theorem truthy_ne_undef {a : JsonVal} (h : truthy a = true) : a ≠ JsonVal.undef := by
  intro hh; subst hh; simp [truthy] at h

/-- A JavaScript default via `||` is `undefined` only if the default is. -/
@[simp] theorem jsOr_ne_undef {a b : JsonVal} (h : b ≠ JsonVal.undef) :
    jsOr a b ≠ JsonVal.undef := by
  unfold jsOr
  cases ha : truthy a
  · simpa using h
  · simpa using truthy_ne_undef ha

/-- The `|| null` default is never `undefined`. -/
@[simp] theorem jsOrNull_ne_undef (a : JsonVal) : jsOrNull a ≠ JsonVal.undef :=
  jsOr_ne_undef nofun

/-- The `?? null` default is never `undefined`. -/
@[simp] theorem jsCoNull_ne_undef (a : JsonVal) : jsCoNull a ≠ JsonVal.undef := by
  cases a <;> simp [jsCoNull]

/-- The session snapshot is an object or `null`, never `undefined`. -/
@[simp] theorem sessionSnapshot_ne_undef (st : MgrState) :
    sessionSnapshot st ≠ JsonVal.undef := by
  unfold sessionSnapshot
  cases st.sessionId <;> cases st.sessionStart <;> simp
  split <;> simp

/-- The tags object is always an object, never `undefined`. -/
@[simp] theorem tagsObj_ne_undef (cfg : Config) (p : PartialEvent) :
    tagsObj cfg p ≠ JsonVal.undef := by
  unfold tagsObj
  cases cfg.release <;> simp
  split <;> simp

/-- Property read after assignment of the same key. -/
theorem lookupField_jsAssign_self (l : List (String × JsonVal)) (k : String)
    (v : JsonVal) : lookupField k (jsAssign l k v) = some v := by
  induction l with
  | nil => simp [jsAssign, lookupField]
  | cons e rest ih =>
    obtain ⟨k1, v1⟩ := e
    by_cases h : k1 = k
    · simp [jsAssign, h, lookupField]
    · simp [jsAssign, h, lookupField, ih]

/-- Property read after assignment of a different key. -/
theorem lookupField_jsAssign_ne (l : List (String × JsonVal)) (k k2 : String)
    (v : JsonVal) (h : k2 ≠ k) :
    lookupField k2 (jsAssign l k v) = lookupField k2 l := by
  have hsymm : k ≠ k2 := Ne.symm h
  induction l with
  | nil => simp [jsAssign, lookupField, hsymm]
  | cons e rest ih =>
    obtain ⟨k1, v1⟩ := e
    by_cases h1 : k1 = k
    · subst h1
      simp [jsAssign, lookupField, hsymm]
    · by_cases h2 : k1 = k2 <;> simp [jsAssign, lookupField, h1, h2, h, ih]

/-- A successful property read exhibits a member entry. -/
theorem lookupField_mem (l : List (String × JsonVal)) (k : String) (v : JsonVal)
    (h : lookupField k l = some v) : (k, v) ∈ l := by
  induction l with
  | nil => simp [lookupField] at h
  | cons e rest ih =>
    obtain ⟨k1, v1⟩ := e
    by_cases h1 : k1 = k
    · subst h1
      simp [lookupField] at h
      subst h
      simp
    · simp [lookupField, h1] at h
      exact List.mem_cons_of_mem _ (ih h)

/-- Assignment never removes a key. -/
theorem lookupField_isSome_jsAssign (l : List (String × JsonVal)) (k2 k : String)
    (v : JsonVal) (h : (lookupField k2 l).isSome = true) :
    (lookupField k2 (jsAssign l k v)).isSome = true := by
  by_cases hk : k2 = k
  · subst hk; simp [lookupField_jsAssign_self]
  · rwa [lookupField_jsAssign_ne l k k2 v hk]

/-- Members after an assignment are the assigned entry or old entries. -/
theorem mem_jsAssign (l : List (String × JsonVal)) (k : String) (v : JsonVal)
    (kv : String × JsonVal) (h : kv ∈ jsAssign l k v) : kv = (k, v) ∨ kv ∈ l := by
  induction l with
  | nil => simpa [jsAssign] using h
  | cons e rest ih =>
    obtain ⟨k1, v1⟩ := e
    by_cases h1 : k1 = k
    · subst h1
      simp only [jsAssign, if_true, eq_self_iff_true, List.mem_cons] at h
      rcases h with h | h
      · exact Or.inl h
      · exact Or.inr (List.mem_cons_of_mem _ h)
    · simp only [jsAssign, if_neg h1, List.mem_cons] at h
      rcases h with h | h
      · exact Or.inr (by simp [h])
      · rcases ih h with h2 | h2
        · exact Or.inl h2
        · exact Or.inr (List.mem_cons_of_mem _ h2)

/-- Members after an `Object.assign` loop come from the target or the
source entries. -/
theorem mem_assignList (rl : List (String × JsonVal)) :
    ∀ (l : List (String × JsonVal)) (kv : String × JsonVal),
      kv ∈ rl.foldl (fun a e => jsAssign a e.1 e.2) l → kv ∈ l ∨ kv ∈ rl := by
  induction rl with
  | nil => intro l kv h; exact Or.inl h
  | cons e rest ih =>
    intro l kv h
    simp only [List.foldl_cons] at h
    rcases ih _ kv h with h1 | h1
    · rcases mem_jsAssign _ _ _ _ h1 with h2 | h2
      · exact Or.inr (by simp [h2])
      · exact Or.inl h2
    · exact Or.inr (List.mem_cons_of_mem _ h1)

/-- An `Object.assign` loop never removes a key. -/
theorem lookupField_isSome_assignList (rl : List (String × JsonVal)) :
    ∀ (l : List (String × JsonVal)) (k : String),
      (lookupField k l).isSome = true →
      (lookupField k (rl.foldl (fun a e => jsAssign a e.1 e.2) l)).isSome = true := by
  induction rl with
  | nil => intro l k h; exact h
  | cons e rest ih =>
    intro l k h
    simp only [List.foldl_cons]
    exact ih _ k (lookupField_isSome_jsAssign l k e.1 e.2 h)

/-- The no-`undefined` invariant survives an assignment whose value is
defined or whose key is a transaction-extension key. -/
theorem noUndefExcept_jsAssign (l : List (String × JsonVal)) (k : String) (v : JsonVal)
    (hl : NoUndefExcept l) (hv : k ∈ undefAllowedKeys ∨ v ≠ JsonVal.undef) :
    NoUndefExcept (jsAssign l k v) := by
  intro kv hkv
  rcases mem_jsAssign _ _ _ _ hkv with rfl | h
  · exact hv
  · exact hl kv h

/-- The no-`undefined` invariant survives an `Object.assign` of entries
with defined values. -/
theorem noUndefExcept_assignList (rl l : List (String × JsonVal))
    (hl : NoUndefExcept l) (hr : ∀ kv ∈ rl, kv.2 ≠ JsonVal.undef) :
    NoUndefExcept (rl.foldl (fun a e => jsAssign a e.1 e.2) l) := by
  intro kv hkv
  rcases mem_assignList rl l kv hkv with h | h
  · exact hl kv h
  · exact Or.inr (hr kv h)

/-- Every value of the plain-event literal is defined (not `undefined`). -/
theorem plainLiteral_values_ne_undef (cfg : Config) (st : MgrState) (inp : Fresh)
    (p : PartialEvent) : ∀ kv ∈ plainLiteral cfg st inp p, kv.2 ≠ JsonVal.undef := by
  intro kv hkv
  simp only [plainLiteral, List.mem_cons, List.not_mem_nil, or_false] at hkv
  rcases hkv with rfl|rfl|rfl|rfl|rfl|rfl|rfl|rfl|rfl|rfl|rfl|rfl|rfl|rfl|rfl|rfl|rfl|
    rfl|rfl|rfl|rfl|rfl|rfl|rfl|rfl|rfl|rfl|rfl|rfl|rfl <;> simp

/-- The plain-event literal satisfies the no-`undefined` invariant. -/
theorem plainLiteral_noUndefExcept (cfg : Config) (st : MgrState) (inp : Fresh)
    (p : PartialEvent) : NoUndefExcept (plainLiteral cfg st inp p) :=
  fun kv hkv => Or.inr (plainLiteral_values_ne_undef cfg st inp p kv hkv)

/-- The transaction literal satisfies the no-`undefined` invariant: only
the `name` and `end_timestamp` extension entries may carry `undefined`. -/
theorem txLiteral_noUndefExcept (cfg : Config) (st : MgrState) (inp : Fresh)
    (p : PartialEvent) : NoUndefExcept (txLiteral cfg st inp p) := by
  intro kv hkv
  simp only [txLiteral, List.mem_cons, List.not_mem_nil, or_false] at hkv
  rcases hkv with rfl|rfl|rfl|rfl|rfl|rfl|rfl|rfl|rfl|rfl|rfl|rfl|rfl|rfl|rfl|rfl|rfl|
    rfl|rfl|rfl|rfl|rfl|rfl|rfl|rfl|rfl|rfl|rfl|rfl|rfl|rfl|rfl|rfl|rfl|rfl <;>
    first
      | (right; simp; done)
      | (left; simp [undefAllowedKeys])

/-- Every schema field is a key of the plain-event literal. -/
theorem plainLiteral_hasKey (cfg : Config) (st : MgrState) (inp : Fresh)
    (p : PartialEvent) :
    ∀ k ∈ schemaFields, (lookupField k (plainLiteral cfg st inp p)).isSome = true := by
  intro k hk
  simp only [schemaFields, List.mem_cons, List.not_mem_nil, or_false] at hk
  rcases hk with rfl|rfl|rfl|rfl|rfl|rfl|rfl|rfl|rfl|rfl|rfl|rfl|rfl|rfl|rfl|rfl|rfl|
    rfl|rfl|rfl|rfl|rfl|rfl|rfl|rfl|rfl|rfl|rfl|rfl|rfl <;>
    simp [plainLiteral, lookupField]

/-- Every schema field is a key of the transaction literal. -/
theorem txLiteral_hasKey (cfg : Config) (st : MgrState) (inp : Fresh)
    (p : PartialEvent) :
    ∀ k ∈ schemaFields, (lookupField k (txLiteral cfg st inp p)).isSome = true := by
  intro k hk
  simp only [schemaFields, List.mem_cons, List.not_mem_nil, or_false] at hk
  rcases hk with rfl|rfl|rfl|rfl|rfl|rfl|rfl|rfl|rfl|rfl|rfl|rfl|rfl|rfl|rfl|rfl|rfl|
    rfl|rfl|rfl|rfl|rfl|rfl|rfl|rfl|rfl|rfl|rfl|rfl|rfl <;>
    simp [txLiteral, lookupField]

/-- The normalized event (after the browser-metadata merge) satisfies
the no-`undefined` invariant. -/
theorem normalizedEvent_noUndefExcept (cfg : Config) (st : MgrState) (inp : Fresh)
    (p : PartialEvent) : NoUndefExcept (normalizedEvent cfg st inp p) := by
  have hbase : NoUndefExcept (if p.hasSpans && p.hasName && p.hasStartTimestamp
      then txLiteral cfg st inp p else plainLiteral cfg st inp p) := by
    split
    · exact txLiteral_noUndefExcept cfg st inp p
    · exact plainLiteral_noUndefExcept cfg st inp p
  simp only [normalizedEvent]
  split
  · exact noUndefExcept_jsAssign _ _ _ hbase (Or.inr (by simp))
  · exact hbase

/-- Every schema field is a key of the normalized event. -/
theorem normalizedEvent_hasKey (cfg : Config) (st : MgrState) (inp : Fresh)
    (p : PartialEvent) :
    ∀ k ∈ schemaFields, (lookupField k (normalizedEvent cfg st inp p)).isSome = true := by
  intro k hk
  have hbase : (lookupField k (if p.hasSpans && p.hasName && p.hasStartTimestamp
      then txLiteral cfg st inp p else plainLiteral cfg st inp p)).isSome = true := by
    split
    · exact txLiteral_hasKey cfg st inp p k hk
    · exact plainLiteral_hasKey cfg st inp p k hk
  simp only [normalizedEvent]
  split
  · exact lookupField_isSome_jsAssign _ _ _ _ hbase
  · exact hbase

/-- Under `GoodHook`, the hook step preserves the no-`undefined`
invariant. -/
theorem hookStep_noUndefExcept (cfg : Config) (ev ev2 : List (String × JsonVal))
    (hg : GoodHook cfg) (h : hookStep cfg ev = some ev2) (hev : NoUndefExcept ev) :
    NoUndefExcept ev2 := by
  cases hbs : cfg.beforeSend with
  | none =>
    simp only [hookStep, hbs, Option.some.injEq] at h
    exact h ▸ hev
  | some f =>
    simp only [hookStep, hbs] at h
    by_cases ht : truthy (f (.jobj ev)) = true
    · rw [if_pos ht] at h
      simp only [Option.some.injEq] at h
      subst h
      cases hr : f (.jobj ev) with
      | jobj rl =>
        simp only [objAssign, hr]
        exact noUndefExcept_assignList rl ev hev (hg f hbs (.jobj ev) rl hr)
      | undef => simpa [objAssign, hr] using hev
      | jnull => simpa [objAssign, hr] using hev
      | jbool b => simpa [objAssign, hr] using hev
      | jnum n => simpa [objAssign, hr] using hev
      | jstr s => simpa [objAssign, hr] using hev
      | jarr xs => simpa [objAssign, hr] using hev
    · rw [if_neg ht] at h
      cases h

/-- The hook step never removes a key. -/
theorem hookStep_hasKey (cfg : Config) (ev ev2 : List (String × JsonVal)) (k : String)
    (h : hookStep cfg ev = some ev2) (hev : (lookupField k ev).isSome = true) :
    (lookupField k ev2).isSome = true := by
  cases hbs : cfg.beforeSend with
  | none =>
    simp only [hookStep, hbs, Option.some.injEq] at h
    exact h ▸ hev
  | some f =>
    simp only [hookStep, hbs] at h
    by_cases ht : truthy (f (.jobj ev)) = true
    · rw [if_pos ht] at h
      simp only [Option.some.injEq] at h
      subst h
      cases hr : f (.jobj ev) with
      | jobj rl =>
        simp only [objAssign, hr]
        exact lookupField_isSome_assignList rl ev k hev
      | undef => simpa [objAssign, hr] using hev
      | jnull => simpa [objAssign, hr] using hev
      | jbool b => simpa [objAssign, hr] using hev
      | jnum n => simpa [objAssign, hr] using hev
      | jstr s => simpa [objAssign, hr] using hev
      | jarr xs => simpa [objAssign, hr] using hev
    · rw [if_neg ht] at h
      cases h

/-- Schema fields never overlap the transaction-extension keys. -/
theorem schemaFields_not_allowed : ∀ k ∈ schemaFields, k ∉ undefAllowedKeys := by
  decide

/-- Acceptance analysis of `captureEvent`: a call that grows the queue
enqueues exactly the hook-step output of the normalized event. -/
theorem captureEvent_accepted (cfg : Config) (st : MgrState) (inp : Fresh)
    (p : PartialEvent) (kvs : List (String × JsonVal))
    (hacc : (captureEvent cfg st inp p).queue = st.queue ++ [.jobj kvs]) :
    hookStep cfg (normalizedEvent cfg st inp p) = some kvs := by
  unfold captureEvent at hacc
  by_cases h1 : st.isSendingLogs = true
  · rw [if_pos h1] at hacc
    simp at hacc
  · rw [if_neg h1] at hacc
    by_cases h2 : msgHasMarker p.message = true
    · rw [if_pos h2] at hacc
      simp at hacc
    · rw [if_neg h2] at hacc
      cases hh : hookStep cfg (normalizedEvent cfg st inp p) with
      | none =>
        rw [hh] at hacc
        simp at hacc
      | some ev2 =>
        simp only [hh] at hacc
        by_cases h3 : sampledOut cfg inp = true
        · rw [if_pos h3] at hacc
          simp at hacc
        · rw [if_neg h3] at hacc
          simp at hacc
          rw [hacc]

/-- With no hook configured, the hook step is the identity. -/
theorem hookStep_none (cfg : Config) (ev ev2 : List (String × JsonVal))
    (hbs : cfg.beforeSend = none) (h : hookStep cfg ev = some ev2) : ev2 = ev := by
  simp only [hookStep, hbs, Option.some.injEq] at h
  exact h.symm

/-- C1: every partial event accepted by `captureEvent` (given a
`beforeSend` hook that returns well-typed events) is enqueued with every
schema field present and never `undefined`; moreover, with no hook
configured and a plain event shape, omitted optional diagnostic data is
represented as explicit `null`. -/
theorem captureEvent_schema_complete (cfg : Config) (st : MgrState) (inp : Fresh)
    (p : PartialEvent) (hg : GoodHook cfg) (kvs : List (String × JsonVal))
    (hacc : (captureEvent cfg st inp p).queue = st.queue ++ [.jobj kvs]) :
    (∀ k ∈ schemaFields,
      lookupField k kvs ≠ none ∧ lookupField k kvs ≠ some JsonVal.undef) ∧
    (cfg.beforeSend = none →
      (p.hasSpans && p.hasName && p.hasStartTimestamp) = false →
      (p.exception = .undef → lookupField "exception" kvs = some .jnull) ∧
      (p.network = .undef → lookupField "network" kvs = some .jnull) ∧
      (p.console = .undef → lookupField "console" kvs = some .jnull) ∧
      (p.user_data = .undef → st.userData = .undef →
        lookupField "user_data" kvs = some .jnull)) := by
  have hh := captureEvent_accepted cfg st inp p kvs hacc
  constructor
  · have hnu : NoUndefExcept kvs :=
      hookStep_noUndefExcept cfg _ kvs hg hh (normalizedEvent_noUndefExcept cfg st inp p)
    intro k hk
    have hsome : (lookupField k kvs).isSome = true :=
      hookStep_hasKey cfg _ kvs k hh (normalizedEvent_hasKey cfg st inp p k hk)
    constructor
    · intro hnone
      rw [hnone] at hsome
      cases hsome
    · intro hundef
      have hm := lookupField_mem kvs k JsonVal.undef hundef
      rcases hnu (k, JsonVal.undef) hm with hall | hne
      · exact schemaFields_not_allowed k hk hall
      · exact hne rfl
  · intro hbs htx
    have hkvs : kvs = normalizedEvent cfg st inp p := hookStep_none cfg _ kvs hbs hh
    subst hkvs
    have hlook : ∀ fld : String, fld ≠ "metadata" →
        lookupField fld (normalizedEvent cfg st inp p) =
          lookupField fld (plainLiteral cfg st inp p) := by
      intro fld hfld
      simp only [normalizedEvent]
      split
      · rw [lookupField_jsAssign_ne _ "metadata" fld _ hfld, if_neg (by simp [htx])]
      · rw [if_neg (by simp [htx])]
    refine ⟨fun hfe => ?_, fun hfe => ?_, fun hfe => ?_, fun hfe hud => ?_⟩ <;>
      rw [hlook _ (by decide)] <;>
      simp [plainLiteral, lookupField, jsOrNull, jsOr, truthy, *]

/-- Witness for C1: field reads of the concretely enqueued event, for a
representative schema field and a representative omitted diagnostic
field. -/
theorem captureEvent_schema_complete_witness :
    (lookupField "exception" wKvs ≠ none ∧
      lookupField "exception" wKvs ≠ some JsonVal.undef) ∧
    lookupField "network" wKvs = some JsonVal.jnull :=
  ⟨(captureEvent_schema_complete cfgW stW inpW pW (fun f hf => nomatch hf) wKvs
      rfl).1 "exception" (by decide),
   ((captureEvent_schema_complete cfgW stW inpW pW (fun f hf => nomatch hf) wKvs
      rfl).2 rfl rfl).2.1 rfl⟩

/-- The `id` property of the normalized event is the caller id with the
fresh-id fallback. -/
theorem normalizedEvent_lookup_id (cfg : Config) (st : MgrState) (inp : Fresh)
    (p : PartialEvent) :
    lookupField "id" (normalizedEvent cfg st inp p) = some (jsOr p.id (.jstr inp.id1)) := by
  simp only [normalizedEvent]
  split
  · rw [lookupField_jsAssign_ne _ "metadata" "id" _ (by decide)]
    split <;> simp [txLiteral, plainLiteral, lookupField]
  · split <;> simp [txLiteral, plainLiteral, lookupField]

/-- The `timestamp` property of the normalized event is the caller
timestamp with the clock fallback. -/
theorem normalizedEvent_lookup_timestamp (cfg : Config) (st : MgrState) (inp : Fresh)
    (p : PartialEvent) :
    lookupField "timestamp" (normalizedEvent cfg st inp p) =
      some (jsOr p.timestamp (.jstr inp.nowIso)) := by
  simp only [normalizedEvent]
  split
  · rw [lookupField_jsAssign_ne _ "metadata" "timestamp" _ (by decide)]
    split <;> simp [txLiteral, plainLiteral, lookupField]
  · split <;> simp [txLiteral, plainLiteral, lookupField]

/-- Under `HookKeepsIdentity`, the hook step leaves the `id` and
`timestamp` properties unchanged. -/
theorem hookStep_keeps_identity (cfg : Config) (ev ev2 : List (String × JsonVal))
    (hk : HookKeepsIdentity cfg) (h : hookStep cfg ev = some ev2) :
    lookupField "id" ev2 = lookupField "id" ev ∧
    lookupField "timestamp" ev2 = lookupField "timestamp" ev := by
  cases hbs : cfg.beforeSend with
  | none =>
    simp only [hookStep, hbs, Option.some.injEq] at h
    subst h
    exact ⟨rfl, rfl⟩
  | some f =>
    simp only [hookStep, hbs] at h
    by_cases ht : truthy (f (.jobj ev)) = true
    · rw [if_pos ht] at h
      simp only [Option.some.injEq] at h
      subst h
      exact hk f hbs ev ht
    · rw [if_neg ht] at h
      cases h

/-- C10: an accepted partial event that supplies its own nonempty id and
timestamp is enqueued carrying exactly those values (given a hook that
does not rewrite the identity fields); fresh values are generated only
when the caller omits them. -/
theorem captureEvent_preserves_identity (cfg : Config) (st : MgrState) (inp : Fresh)
    (p : PartialEvent) (idStr tsStr : String)
    (hidp : p.id = .jstr idStr) (hidne : idStr ≠ "")
    (htsp : p.timestamp = .jstr tsStr) (htsne : tsStr ≠ "")
    (hk : HookKeepsIdentity cfg) (kvs : List (String × JsonVal))
    (hacc : (captureEvent cfg st inp p).queue = st.queue ++ [.jobj kvs]) :
    lookupField "id" kvs = some (.jstr idStr) ∧
    lookupField "timestamp" kvs = some (.jstr tsStr) := by
  have hh := captureEvent_accepted cfg st inp p kvs hacc
  have hpres := hookStep_keeps_identity cfg _ kvs hk hh
  have hid0 : lookupField "id" (normalizedEvent cfg st inp p) = some (.jstr idStr) := by
    rw [normalizedEvent_lookup_id, hidp]
    simp [jsOr, truthy, hidne]
  have hts0 : lookupField "timestamp" (normalizedEvent cfg st inp p) =
      some (.jstr tsStr) := by
    rw [normalizedEvent_lookup_timestamp, htsp]
    simp [jsOr, truthy, htsne]
  exact ⟨hpres.1.trans hid0, hpres.2.trans hts0⟩

/-- Witness for C10 at a concrete partial event with caller-supplied
identity. -/
theorem captureEvent_preserves_identity_witness :
    lookupField "id" wIdKvs = some (.jstr "caller-id-1") ∧
    lookupField "timestamp" wIdKvs = some (.jstr "2024-05-05T10:00:00.000Z") :=
  captureEvent_preserves_identity cfgW stW inpW pIdW "caller-id-1"
    "2024-05-05T10:00:00.000Z" rfl (by decide) rfl (by decide)
    (fun f hf => nomatch hf) wIdKvs rfl

end Echolog
